import Mathlib

/-!
Verification of the Sidekick-App core (src/services/audioService.ts and
src/components/Tools.tsx), shallowly embedded in Lean.

Conventions of the embedding:
* JS numbers that only ever hold exact small values (sample values, tick
  counts, tempo, timestamps) are modelled as `ℚ`, `ℤ` or `ℕ`.
* JS bitwise operators coerce to 32-bit integers; in `writeVarInt` every
  intermediate value stays below `2 ^ 31` for inputs below `2 ^ 28`, where the
  coercion is the identity, so the VLQ writer is modelled on `ℕ`.
* A JS array read out of bounds yields `undefined`; every comparison with
  `undefined` is false; arithmetic on it yields `NaN`, and `if (NaN)` takes
  the else branch.  Each such site is modelled explicitly with `Option` or a
  guarded index.
* A JS division by zero yields `Infinity`; the embedding keeps those cases as
  explicit constructors (`PitchResult.infinite`, `BpmState.infiniteBpm`)
  instead of using the Lean convention `x / 0 = 0`.
-/

namespace Sidekick

/-! ### Variable-length quantities (`writeVarInt` in audioService.ts) -/

/-!
The loops of the source are embedded with an explicit fuel argument (an upper
bound on the number of iterations, always called with enough fuel), so that
every function is structurally recursive and evaluates inside the kernel.
-/

/-- First loop of `writeVarInt`: `while ((value >>= 7) > 0) { buffer <<= 8;
buffer |= 0x80; buffer += value & 0x7f; }`.  The shift of the assignment
`value >>= 7` happens inside the loop condition, so each test looks at the
already shifted value.  The loop shrinks `value` by a factor of 128 each
iteration, so `value` itself is enough fuel. -/
def vlqAccumAux : Nat → Nat → Nat → Nat
  | 0, _, buffer => buffer
  | fuel + 1, value, buffer =>
    if 0 < value >>> 7 then
      vlqAccumAux fuel (value >>> 7) (((buffer <<< 8) ||| 0x80) + ((value >>> 7) &&& 0x7f))
    else buffer

/-- The accumulator loop of `writeVarInt` run to completion. -/
def vlqAccum (value buffer : Nat) : Nat := vlqAccumAux value value buffer

/-- Second loop of `writeVarInt`: `while (true) { data.push(buffer & 0xff);
if (buffer & 0x80) buffer >>= 8; else break; }`.  The loop shrinks `buffer`
by a factor of 256 each iteration, so `buffer` itself is enough fuel. -/
def vlqEmitAux : Nat → Nat → List Nat
  | 0, buffer => [buffer &&& 0xff]
  | fuel + 1, buffer =>
    if buffer &&& 0x80 ≠ 0 then (buffer &&& 0xff) :: vlqEmitAux fuel (buffer >>> 8)
    else [buffer &&& 0xff]

/-- The emit loop of `writeVarInt` run to completion. -/
def vlqEmit (buffer : Nat) : List Nat := vlqEmitAux buffer buffer

/-- `writeVarInt` from audioService.ts: seed the buffer with `value & 0x7f`,
accumulate the higher 7-bit groups, then emit bytes from the low end. -/
def writeVarInt (value : Nat) : List Nat :=
  vlqEmit (vlqAccum value (value &&& 0x7f))

/-- Standard MIDI VLQ decoder (the inverse direction named by the spec):
each byte contributes its low 7 data bits, most significant group first. -/
def vlqDecode (bytes : List Nat) : Nat :=
  bytes.foldl (fun acc b => acc * 128 + (b &&& 0x7f)) 0

/-- Base-128 digits of a number, least significant first.  Helper used to
describe the contents of the `writeVarInt` accumulator. -/
def digits128 (n : Nat) : List Nat :=
  if 0 < n then n % 128 :: digits128 (n / 128) else []
termination_by n
decreasing_by exact Nat.div_lt_self (by assumption) (by norm_num)

/-! ### MIDI file encoder (`generateMidiFile` in audioService.ts) -/

/-- `MidiNote` from src/types.ts: MIDI note number, velocity, start time in
seconds and duration in seconds. -/
structure MidiNote where
  note : ℤ
  velocity : ℤ
  startTime : ℚ
  duration : ℚ
deriving DecidableEq, Repr

/-- The `type: 'noteOn' | 'noteOff'` field of the local `MidiEvent`
interface in `generateMidiFile`. -/
inductive MidiEventType where
  | noteOn : MidiEventType
  | noteOff : MidiEventType
deriving DecidableEq, Repr

/-- The local `MidiEvent` interface in `generateMidiFile`:
`{ type, note, velocity, time }`, `time` in ticks. -/
structure MidiEvent where
  type : MidiEventType
  note : ℤ
  velocity : ℤ
  time : ℤ
deriving DecidableEq, Repr

/-- `secondsPerTick = (60 / bpm) / TICKS_PER_BEAT` with `TICKS_PER_BEAT = 480`. -/
def secondsPerTick (bpm : ℚ) : ℚ := (60 / bpm) / 480

/-- The two events pushed for one note inside `notes.forEach`:
a note-on at `Math.round(n.startTime / secondsPerTick)` and a note-off with
velocity 0 at `Math.round((n.startTime + n.duration) / secondsPerTick)`.
`Math.round x = ⌊x + 1/2⌋` coincides with Mathlib `round`. -/
def noteEvents (spt : ℚ) (n : MidiNote) : List MidiEvent :=
  [⟨MidiEventType.noteOn, n.note, n.velocity, round (n.startTime / spt)⟩,
   ⟨MidiEventType.noteOff, n.note, 0, round ((n.startTime + n.duration) / spt)⟩]

/-- The full event list built by `notes.forEach`, in input order. -/
def midiEvents (notes : List MidiNote) (bpm : ℚ) : List MidiEvent :=
  notes.flatMap (noteEvents (secondsPerTick bpm))

/-- The sort comparator `(a, b) => a.time - b.time`: ascending by tick. -/
def eventLE (a b : MidiEvent) : Bool := a.time ≤ b.time

/-- `events.sort((a, b) => a.time - b.time)`.  `Array.prototype.sort` is
stable (ECMAScript 2019), modelled by the stable `List.mergeSort`. -/
def sortedEvents (notes : List MidiNote) (bpm : ℚ) : List MidiEvent :=
  (midiEvents notes bpm).mergeSort eventLE

/-- One iteration of `events.forEach` over `(trackData, currentTime)`:
write the delta time as a VLQ, then the channel message bytes
(`0x90 note velocity` for note-on, `0x80 note 0` for note-off).  For the
event streams considered in the theorems below the deltas are nonnegative,
where `Int.toNat` is the identity. -/
def trackEventStep (acc : List ℤ × ℤ) (e : MidiEvent) : List ℤ × ℤ :=
  (acc.1 ++ (writeVarInt (e.time - acc.2).toNat).map Int.ofNat ++
    (match e.type with
     | MidiEventType.noteOn => [0x90, e.note, e.velocity]
     | MidiEventType.noteOff => [0x80, e.note, 0]),
   e.time)

/-- The `trackData` array: all events from `currentTime = 0`, then the
end-of-track meta event `writeVar(0); push(0xFF, 0x2F, 0x00)`. -/
def trackData (events : List MidiEvent) : List ℤ :=
  (events.foldl trackEventStep ([], 0)).1 ++
    (writeVarInt 0).map Int.ofNat ++ [0xFF, 0x2F, 0x00]

/-- Big-endian bytes of `view.setUint32`. -/
def u32be (n : ℕ) : List ℕ := [n / 2 ^ 24 % 256, n / 2 ^ 16 % 256, n / 2 ^ 8 % 256, n % 256]

/-- Big-endian bytes of `view.setUint16`. -/
def u16be (n : ℕ) : List ℕ := [n / 2 ^ 8 % 256, n % 256]

/-- `writeString(view, 0, 'MThd')`: the char codes of `MThd`. -/
def mthdBytes : List ℕ := [77, 84, 104, 100]

/-- `writeString(view, 14, 'MTrk')`: the char codes of `MTrk`. -/
def mtrkBytes : List ℕ := [77, 84, 114, 107]

/-- `generateMidiFile`: 14-byte header chunk (`MThd`, length 6, format 0,
1 track, division 480), 8-byte track header (`MTrk`, track byte count as
uint32), then the track bytes.  The assignment `bytes[22 + i] =
trackData[i]` into a `Uint8Array` wraps each value modulo 256. -/
def generateMidiFile (notes : List MidiNote) (bpm : ℚ) : List ℕ :=
  mthdBytes ++ u32be 6 ++ u16be 0 ++ u16be 1 ++ u16be 480 ++
    mtrkBytes ++ u32be ((trackData (sortedEvents notes bpm)).length % 2 ^ 32) ++
    (trackData (sortedEvents notes bpm)).map (fun b => (b % 256).toNat)

/-! ### Pitch estimator (`getPitch` in audioService.ts) -/

/-- The RMS accumulator: `rms += val * val` over the frame. -/
def sumSq (buf : List ℚ) : ℚ := (buf.map (fun v => v * v)).sum

/-- The low-signal test `Math.sqrt(rms / size) < 0.01`.  For a nonempty
frame `sqrt (s / n) < 1/100 ↔ s / n < 1/10000` since `s / n ≥ 0`; for an
empty frame JS computes `sqrt (0 / 0) = NaN` and `NaN < 0.01` is false,
hence the `0 < buf.length` conjunct. -/
def lowSignal (buf : List ℚ) : Prop :=
  0 < buf.length ∧ sumSq buf / (buf.length : ℚ) < 1 / 10000

instance (buf : List ℚ) : Decidable (lowSignal buf) :=
  inferInstanceAs (Decidable (_ ∧ _))

/-- First trim loop: `for (i = 0; i < size / 2; i++) if (Math.abs(buf[i]) <
thres) { r1 = i; break; }` with `r1` initialised to 0 and `thres = 0.2`.
For a natural `i` the real test `i < size / 2` is `2 * i < size`.  The loop
body runs only while `2 * i < size`, so `size + 1` fuel is enough. -/
def r1LoopAux (buf : List ℚ) : ℕ → ℕ → ℕ
  | 0, _ => 0
  | fuel + 1, i =>
    if 2 * i < buf.length then
      if |buf.getD i 0| < 1 / 5 then i else r1LoopAux buf fuel (i + 1)
    else 0

/-- The value of `r1` after the first trim loop. -/
def r1Loop (buf : List ℚ) : ℕ := r1LoopAux buf (buf.length + 1) 0

/-- Second trim loop: `for (i = 1; i < size / 2; i++) if
(Math.abs(buf[size - i]) < thres) { r2 = size - i; break; }` with `r2`
initialised to `size - 1`. -/
def r2LoopAux (buf : List ℚ) : ℕ → ℕ → ℕ
  | 0, _ => buf.length - 1
  | fuel + 1, i =>
    if 2 * i < buf.length then
      if |buf.getD (buf.length - i) 0| < 1 / 5 then buf.length - i
      else r2LoopAux buf fuel (i + 1)
    else buf.length - 1

/-- The value of `r2` after the second trim loop.  For an empty frame the
JS value is `-1` and `slice(0, -1)` is empty; here `r2 = 0` gives the same
empty slice. -/
def r2Loop (buf : List ℚ) : ℕ := r2LoopAux buf (buf.length + 1) 1

/-- `buf.slice(r1, r2)` with the loop results (`r2` exclusive). -/
def bufSlice (buf : List ℚ) : List ℚ :=
  (buf.drop (r1Loop buf)).take (r2Loop buf - r1Loop buf)

/-- The unnormalised autocorrelation: `c[i] = Σ_{j < cSize - i}
bufSlice[j] * bufSlice[j + i]`. -/
def autocorr (s : List ℚ) : List ℚ :=
  (List.range s.length).map fun i =>
    ((List.range (s.length - i)).map fun j => s.getD j 0 * s.getD (j + i) 0).sum

/-- The descending-skip loop `let d = 0; while (c[d] > c[d + 1]) d++`.
When `d + 1` is out of bounds, `c[d + 1]` is `undefined` and the JS
comparison is false, so the loop stops; hence the bounds guard.  Every
iteration requires `d + 1 < length`, so `length` fuel is enough from
`d = 0`. -/
def skipDescentAux (c : List ℚ) : ℕ → ℕ → ℕ
  | 0, d => d
  | fuel + 1, d =>
    if d + 1 < c.length ∧ c.getD (d + 1) 0 < c.getD d 0 then skipDescentAux c fuel (d + 1)
    else d

/-- The value of `d` after the descending-skip loop. -/
def skipDescent (c : List ℚ) : ℕ := skipDescentAux c c.length 0

/-- The max-search loop from `i = d`:
`let maxval = -1, maxpos = -1; for (i = d; i < cSize; i++) if (c[i] >
maxval) { maxval = c[i]; maxpos = i; }`. -/
def maxScan (c : List ℚ) (d : ℕ) : ℚ × ℤ :=
  ((List.range c.length).drop d).foldl
    (fun acc i => if acc.1 < c.getD i 0 then (c.getD i 0, (i : ℤ)) else acc)
    (-1, -1)

/-- JS array read `c[k]` for a possibly negative or out-of-range index:
`undefined` outside `[0, length)`. -/
def cGet (c : List ℚ) (k : ℤ) : Option ℚ :=
  if h : 0 ≤ k ∧ k.toNat < c.length then some (c.get ⟨k.toNat, h.2⟩) else none

/-- The parabolic-interpolation step.  When any of `c[T0 - 1]`, `c[T0]`,
`c[T0 + 1]` is `undefined`, `a` is `NaN`, and `if (a)` is false, so `T0`
is unchanged; likewise when `a = 0`. -/
def interp (c : List ℚ) (t0 : ℤ) : ℚ :=
  match cGet c (t0 - 1), cGet c t0, cGet c (t0 + 1) with
  | some x1, some x2, some x3 =>
      let a := (x1 + x3 - 2 * x2) / 2
      let b := (x3 - x1) / 2
      if a ≠ 0 then (t0 : ℚ) - b / (2 * a) else (t0 : ℚ)
  | _, _, _ => (t0 : ℚ)

/-- The refined period `T0` computed by `getPitch` after the RMS guard. -/
def getPitchT0 (buf : List ℚ) : ℚ :=
  interp (autocorr (bufSlice buf))
    (maxScan (autocorr (bufSlice buf)) (skipDescent (autocorr (bufSlice buf)))).2

/-- The value returned by `getPitch`: `-1` for a low signal (`silent`),
otherwise `sampleRate / T0`, which in JS is `Infinity` when `T0 = 0`. -/
inductive PitchResult where
  | silent : PitchResult
  | infinite : PitchResult
  | freq : ℚ → PitchResult
deriving DecidableEq, Repr

/-- `getPitch` from audioService.ts. -/
def getPitch (buf : List ℚ) (sampleRate : ℚ) : PitchResult :=
  if lowSignal buf then PitchResult.silent
  else if getPitchT0 buf = 0 then PitchResult.infinite
  else PitchResult.freq (sampleRate / getPitchT0 buf)

/-- Modelled from the spec (section 4.1, step 2), for comparison with the
code: trim the frame to the central region bounded by the first and the
last samples whose absolute value exceeds the 0.2 trigger threshold
(bounds inclusive); if no sample exceeds it, the frame is left whole. -/
def specTrimSlice (buf : List ℚ) : List ℚ :=
  match (List.range buf.length).find? (fun i => 1 / 5 < |buf.getD i 0|),
      (List.range buf.length).reverse.find? (fun i => 1 / 5 < |buf.getD i 0|) with
  | some i, some j => (buf.drop i).take (j + 1 - i)
  | _, _ => buf

/-! ### Note mapper (Tools.tsx).  `Math.log`, `Math.pow` and `Math.round`
are modelled over the reals; `Math.round x = ⌊x + 1/2⌋` is Mathlib
`round` and `Math.floor` is `Int.floor`. -/

/-- `noteFromPitch` from Tools.tsx:
`Math.round(12 * (Math.log(frequency / 440) / Math.log(2))) + 69`. -/
noncomputable def noteFromPitch (frequency : ℝ) : ℤ :=
  round (12 * (Real.log (frequency / 440) / Real.log 2)) + 69

/-- `frequencyFromNoteNumber` from Tools.tsx:
`440 * Math.pow(2, (note - 69) / 12)`. -/
noncomputable def frequencyFromNoteNumber (note : ℤ) : ℝ :=
  440 * (2 : ℝ) ^ (((note : ℝ) - 69) / 12)

/-- `centsOffFromPitch` from Tools.tsx:
`Math.floor(1200 * Math.log(frequency / frequencyFromNoteNumber(note)) /
Math.log(2))`. -/
noncomputable def centsOffFromPitch (frequency : ℝ) (note : ℤ) : ℤ :=
  ⌊1200 * Real.log (frequency / frequencyFromNoteNumber note) / Real.log 2⌋

/-- The MIDI number computed in the Note to Hz effect:
`(oct + 1) * 12 + noteIdx`, for a pitch-class index and an octave. -/
def midiNumber (noteIdx octave : ℕ) : ℤ := ((octave : ℤ) + 1) * 12 + (noteIdx : ℤ)

/-- The frequency computed in the Note to Hz effect:
`440 * Math.pow(2, (midi - 69) / 12)`, the same expression as
`frequencyFromNoteNumber` applied to `midiNumber`. -/
noncomputable def noteToFrequency (noteIdx octave : ℕ) : ℝ :=
  frequencyFromNoteNumber (midiNumber noteIdx octave)

/-! ### Tap tempo (`handleTap` in Tools.tsx) -/

/-- The `bpm` React state.  `BpmState.val` holds the finite
`Math.round(60000 / avgInterval)`; `BpmState.infiniteBpm` is the JS value
`Infinity` produced when the average interval is zero
(`60000 / 0 = Infinity` and `Math.round(Infinity) = Infinity`). -/
inductive BpmState where
  | val : ℤ → BpmState
  | infiniteBpm : BpmState
deriving DecidableEq, Repr

/-- The tracker state: the `taps` list and the displayed `bpm`
(initially 0, which the component renders as the insufficient-data
placeholder). -/
structure TapState where
  taps : List ℤ
  bpm : BpmState
deriving DecidableEq, Repr

/-- The initial state: `useState<number[]>([])` and `useState<number>(0)`. -/
def initialTapState : TapState := ⟨[], BpmState.val 0⟩

/-- The `intervals` array: `newTaps[i] - newTaps[i - 1]` for `i ≥ 1`. -/
def tapIntervals (ts : List ℤ) : List ℤ :=
  (ts.zip ts.tail).map fun p => p.2 - p.1

/-- `handleTap` from Tools.tsx with the clock reading passed explicitly:
append `now`, keep timestamps with `now - t < 3000`, and when more than
one remains set `bpm = Math.round(60000 / avgInterval)` where
`avgInterval` is the mean interval.  A zero interval sum makes
`avgInterval = 0` and the unguarded division yields `Infinity`. -/
def handleTap (s : TapState) (now : ℤ) : TapState :=
  let newTaps := (s.taps ++ [now]).filter fun t => now - t < 3000
  if 1 < newTaps.length then
    if (tapIntervals newTaps).sum = 0 then
      { taps := newTaps, bpm := BpmState.infiniteBpm }
    else
      { taps := newTaps,
        bpm := BpmState.val (round ((60000 : ℚ) /
          (((tapIntervals newTaps).sum : ℚ) / ((tapIntervals newTaps).length : ℚ)))) }
  else { taps := newTaps, bpm := s.bpm }

/-! ## Helper lemmas -/

theorem and127_eq_mod (v : ℕ) : v &&& 127 = v % 128 := by
  have h := Nat.and_pow_two_sub_one_eq_mod v 7
  norm_num at h
  exact h

theorem and255_eq_mod (v : ℕ) : v &&& 255 = v % 256 := by
  have h := Nat.and_pow_two_sub_one_eq_mod v 8
  norm_num at h
  exact h

theorem shiftRight7_eq (v : ℕ) : v >>> 7 = v / 128 := by
  have h := Nat.shiftRight_eq_div_pow v 7
  norm_num at h
  exact h

theorem shiftRight8_eq (v : ℕ) : v >>> 8 = v / 256 := by
  have h := Nat.shiftRight_eq_div_pow v 8
  norm_num at h
  exact h

theorem and128_eq_zero {v : ℕ} (h : v < 128) : v &&& 128 = 0 := by
  have h2 := Nat.and_two_pow v 7
  rw [Nat.testBit_lt_two_pow (lt_of_lt_of_le h (by norm_num))] at h2
  norm_num at h2
  exact h2

theorem and128_ne_zero {b c : ℕ} (h : c < 128) : (b * 256 + (128 + c)) &&& 128 ≠ 0 := by
  have h2 := Nat.and_two_pow (b * 256 + (128 + c)) 7
  have ht : (b * 256 + (128 + c)).testBit 7 = true := by
    rw [Nat.testBit_to_div_mod]
    simp only [decide_eq_true_eq]
    omega
  rw [ht] at h2
  norm_num at h2
  omega

theorem vlqEmitAux_congr (b : ℕ) : ∀ f1 f2 : ℕ, b ≤ f1 → b ≤ f2 →
    vlqEmitAux f1 b = vlqEmitAux f2 b := by
  induction b using Nat.strong_induction_on with
  | _ b ih =>
    intro f1 f2 h1 h2
    by_cases hb : b &&& 0x80 ≠ 0
    · have hb128 : 128 ≤ b := by
        by_contra hlt
        exact hb (and128_eq_zero (by omega))
      obtain ⟨g1, rfl⟩ : ∃ g1, f1 = g1 + 1 := ⟨f1 - 1, by omega⟩
      obtain ⟨g2, rfl⟩ : ∃ g2, f2 = g2 + 1 := ⟨f2 - 1, by omega⟩
      simp only [vlqEmitAux, if_pos hb]
      congr 1
      have hlt : b >>> 8 < b := by rw [shiftRight8_eq]; omega
      exact ih _ hlt _ _ (by rw [shiftRight8_eq]; omega) (by rw [shiftRight8_eq]; omega)
    · cases f1 <;> cases f2 <;> simp [vlqEmitAux, hb]

theorem vlqEmit_unfold (b : ℕ) :
    vlqEmit b = if b &&& 0x80 ≠ 0 then (b &&& 0xff) :: vlqEmit (b >>> 8)
      else [b &&& 0xff] := by
  unfold vlqEmit
  cases b with
  | zero => simp [vlqEmitAux]
  | succ n =>
    simp only [vlqEmitAux]
    by_cases hc : (n + 1) &&& 0x80 ≠ 0
    · rw [if_pos hc, if_pos hc]
      congr 1
      have hb128 : 128 ≤ n + 1 := by
        by_contra hlt
        exact hc (and128_eq_zero (by omega))
      exact vlqEmitAux_congr _ _ _ (by rw [shiftRight8_eq]; omega) le_rfl
    · rw [if_neg hc, if_neg hc]

theorem vlqAccumAux_congr (v : ℕ) : ∀ f1 f2 b : ℕ, v ≤ f1 → v ≤ f2 →
    vlqAccumAux f1 v b = vlqAccumAux f2 v b := by
  induction v using Nat.strong_induction_on with
  | _ v ih =>
    intro f1 f2 b h1 h2
    by_cases hv : 0 < v >>> 7
    · have hv128 : 128 ≤ v := by
        rw [shiftRight7_eq] at hv
        omega
      obtain ⟨g1, rfl⟩ : ∃ g1, f1 = g1 + 1 := ⟨f1 - 1, by omega⟩
      obtain ⟨g2, rfl⟩ : ∃ g2, f2 = g2 + 1 := ⟨f2 - 1, by omega⟩
      simp only [vlqAccumAux, if_pos hv]
      have hlt : v >>> 7 < v := by rw [shiftRight7_eq]; omega
      exact ih _ hlt _ _ _ (by rw [shiftRight7_eq]; omega) (by rw [shiftRight7_eq]; omega)
    · cases f1 <;> cases f2 <;> simp [vlqAccumAux, hv]

theorem vlqAccum_unfold (v b : ℕ) :
    vlqAccum v b = if 0 < v >>> 7 then
      vlqAccum (v >>> 7) (((b <<< 8) ||| 0x80) + ((v >>> 7) &&& 0x7f))
    else b := by
  unfold vlqAccum
  cases v with
  | zero => simp [vlqAccumAux]
  | succ n =>
    simp only [vlqAccumAux]
    by_cases hc : 0 < (n + 1) >>> 7
    · rw [if_pos hc, if_pos hc]
      have hb128 : 128 ≤ n + 1 := by
        rw [shiftRight7_eq] at hc
        omega
      exact vlqAccumAux_congr _ _ _ _ (by rw [shiftRight7_eq]; omega) le_rfl
    · rw [if_neg hc, if_neg hc]

theorem vlqAccum_step (v b : ℕ) (h : 0 < v / 128) :
    vlqAccum v b = vlqAccum (v / 128) (b * 256 + (128 + v / 128 % 128)) := by
  rw [vlqAccum_unfold, shiftRight7_eq, if_pos h, and127_eq_mod, Nat.shiftLeft_eq]
  have h2 : b * 2 ^ 8 ||| 128 = b * 256 + 128 := by
    rw [mul_comm, ← Nat.mul_add_lt_is_or (show (128 : ℕ) < 2 ^ 8 by norm_num) b]
    ring
  rw [h2, Nat.add_assoc]

theorem vlqAccum_done (v b : ℕ) (h : v / 128 = 0) : vlqAccum v b = b := by
  rw [vlqAccum_unfold, shiftRight7_eq, h]
  simp

theorem vlqEmit_single {c : ℕ} (h : c < 128) : vlqEmit c = [c] := by
  rw [vlqEmit_unfold, if_neg (by simpa using and128_eq_zero h), and255_eq_mod,
    Nat.mod_eq_of_lt (by omega)]

theorem vlqEmit_packed {b c : ℕ} (h : c < 128) :
    vlqEmit (b * 256 + (128 + c)) = (128 + c) :: vlqEmit b := by
  rw [vlqEmit_unfold, if_pos (and128_ne_zero h)]
  congr 1
  · rw [and255_eq_mod]; omega
  · congr 1; rw [shiftRight8_eq]; omega

theorem vlqEmit_vlqAccum (v : ℕ) : ∀ b : ℕ,
    vlqEmit (vlqAccum v b) =
      ((digits128 (v / 128)).reverse.map fun g => 128 + g) ++ vlqEmit b := by
  induction v using Nat.strong_induction_on with
  | _ v ih =>
    intro b
    by_cases h : 0 < v / 128
    · rw [vlqAccum_step v b h,
        ih (v / 128) (Nat.div_lt_self (by omega) (by norm_num)) _,
        vlqEmit_packed (Nat.mod_lt _ (by norm_num))]
      conv_rhs => rw [digits128]
      rw [if_pos h]
      simp [List.map_append, List.append_assoc]
    · rw [vlqAccum_done v b (by omega), digits128, if_neg h]
      simp

theorem vlqDecode_digits (n : ℕ) : ∀ acc : ℕ,
    ((digits128 n).reverse.map fun g => 128 + g).foldl
        (fun a b => a * 128 + (b &&& 127)) acc
      = acc * 128 ^ (digits128 n).length + n := by
  induction n using Nat.strong_induction_on with
  | _ n ih =>
    intro acc
    by_cases h : 0 < n
    · rw [digits128, if_pos h]
      simp only [List.reverse_cons, List.map_append, List.foldl_append,
        List.length_cons, List.map_cons, List.map_nil, List.foldl_cons,
        List.foldl_nil]
      rw [ih (n / 128) (Nat.div_lt_self h (by norm_num)) acc]
      rw [and127_eq_mod]
      rw [pow_succ, ← mul_assoc]
      generalize acc * 128 ^ (digits128 (n / 128)).length = A
      omega
    · rw [digits128, if_neg h]
      simp
      omega

theorem writeVarInt_decode (v : ℕ) : vlqDecode (writeVarInt v) = v := by
  unfold writeVarInt vlqDecode
  rw [and127_eq_mod, vlqEmit_vlqAccum, vlqEmit_single (Nat.mod_lt _ (by norm_num)),
    List.foldl_append, vlqDecode_digits]
  simp only [List.foldl_cons, List.foldl_nil]
  rw [and127_eq_mod]
  simp only [zero_mul]
  omega

theorem r1LoopAux_reach (buf : List ℚ) :
    ∀ d fuel k : ℕ, d + 1 ≤ fuel → 2 * (k + d) < buf.length →
      |buf.getD (k + d) 0| < 1 / 5 →
      (∀ m, k ≤ m → m < k + d → ¬(|buf.getD m 0| < 1 / 5)) →
      r1LoopAux buf fuel k = k + d := by
  intro d
  induction d with
  | zero =>
    intro fuel k hfuel h2 hv hmin
    obtain ⟨g, rfl⟩ : ∃ g, fuel = g + 1 := ⟨fuel - 1, by omega⟩
    simp only [r1LoopAux]
    rw [if_pos (by omega : 2 * k < buf.length), if_pos (by simpa using hv)]
    omega
  | succ d ih =>
    intro fuel k hfuel h2 hv hmin
    obtain ⟨g, rfl⟩ : ∃ g, fuel = g + 1 := ⟨fuel - 1, by omega⟩
    simp only [r1LoopAux]
    rw [if_pos (by omega : 2 * k < buf.length),
      if_neg (hmin k le_rfl (by omega))]
    have hidx : k + 1 + d = k + (d + 1) := by omega
    rw [ih g (k + 1) (by omega) (by rw [hidx]; exact h2) (by rw [hidx]; exact hv)
      (fun m hm1 hm2 => hmin m (by omega) (by omega))]
    omega

theorem r2LoopAux_reach (buf : List ℚ) :
    ∀ d fuel k : ℕ, d + 1 ≤ fuel → 2 * (k + d) < buf.length →
      |buf.getD (buf.length - (k + d)) 0| < 1 / 5 →
      (∀ m, k ≤ m → m < k + d → ¬(|buf.getD (buf.length - m) 0| < 1 / 5)) →
      r2LoopAux buf fuel k = buf.length - (k + d) := by
  intro d
  induction d with
  | zero =>
    intro fuel k hfuel h2 hv hmin
    obtain ⟨g, rfl⟩ : ∃ g, fuel = g + 1 := ⟨fuel - 1, by omega⟩
    simp only [r2LoopAux]
    rw [if_pos (by omega : 2 * k < buf.length), if_pos (by simpa using hv)]
    omega
  | succ d ih =>
    intro fuel k hfuel h2 hv hmin
    obtain ⟨g, rfl⟩ : ∃ g, fuel = g + 1 := ⟨fuel - 1, by omega⟩
    simp only [r2LoopAux]
    rw [if_pos (by omega : 2 * k < buf.length),
      if_neg (hmin k le_rfl (by omega))]
    have hidx : k + 1 + d = k + (d + 1) := by omega
    rw [ih g (k + 1) (by omega) (by rw [hidx]; exact h2) (by rw [hidx]; exact hv)
      (fun m hm1 hm2 => hmin m (by omega) (by omega))]
    rw [hidx]

theorem skipDescentAux_lt (c : List ℚ) :
    ∀ fuel d : ℕ, d < c.length → skipDescentAux c fuel d < c.length := by
  intro fuel
  induction fuel with
  | zero => intro d hd; simpa [skipDescentAux] using hd
  | succ fuel ih =>
    intro d hd
    simp only [skipDescentAux]
    by_cases hg : d + 1 < c.length ∧ c.getD (d + 1) 0 < c.getD d 0
    · rw [if_pos hg]; exact ih (d + 1) hg.1
    · rw [if_neg hg]; exact hd

theorem sublist_flatMap_self {α β : Type} (f : α → List β) {l : List α} {a : α}
    (h : a ∈ l) : List.Sublist (f a) (l.flatMap f) := by
  induction l with
  | nil => cases h
  | cons b bs ih =>
    rw [List.flatMap_cons]
    rcases List.mem_cons.mp h with rfl | h2
    · exact List.sublist_append_left _ _
    · exact (ih h2).trans (List.sublist_append_right _ _)

theorem eventLE_trans (a b c : MidiEvent) : eventLE a b → eventLE b c → eventLE a c := by
  simp only [eventLE, decide_eq_true_eq]
  omega

theorem eventLE_total (a b : MidiEvent) : eventLE a b || eventLE b a := by
  simp only [eventLE, Bool.or_eq_true, decide_eq_true_eq]
  omega

theorem frequencyFromNoteNumber_pos (m : ℤ) : 0 < frequencyFromNoteNumber m := by
  unfold frequencyFromNoteNumber
  positivity

theorem noteFromPitch_inverse (m : ℤ) : noteFromPitch (frequencyFromNoteNumber m) = m := by
  unfold noteFromPitch frequencyFromNoteNumber
  rw [mul_div_cancel_left₀ _ (by norm_num : (440 : ℝ) ≠ 0),
    Real.log_rpow (by norm_num : (0 : ℝ) < 2),
    mul_div_cancel_right₀ _
      (Real.log_ne_zero_of_pos_of_ne_one (by norm_num) (by norm_num))]
  have h12 : (12 : ℝ) * (((m : ℝ) - 69) / 12) = (m : ℝ) - 69 := by ring
  rw [h12]
  have hc : ((m : ℝ) - 69) = (((m - 69 : ℤ)) : ℝ) := by push_cast; ring
  rw [hc, round_intCast]
  omega

theorem centsOffFromPitch_self (m : ℤ) :
    centsOffFromPitch (frequencyFromNoteNumber m) m = 0 := by
  unfold centsOffFromPitch
  rw [div_self (ne_of_gt (frequencyFromNoteNumber_pos m))]
  simp

theorem writeVarInt_zero : writeVarInt 0 = [0] := by
  norm_num [writeVarInt, vlqAccum, vlqAccumAux, vlqEmit, vlqEmitAux]

theorem trackData_length_ge (events : List MidiEvent) :
    4 ≤ (trackData events).length := by
  unfold trackData
  rw [writeVarInt_zero]
  simp

theorem int_toNat_960 : (960 : ℤ).toNat = 960 := rfl

theorem writeVarInt_960 : writeVarInt 960 = [135, 64] := by
  unfold writeVarInt
  rw [show (960 &&& 127) = 64 by rw [and127_eq_mod],
    vlqAccum_step 960 64 (by norm_num)]
  norm_num
  rw [vlqAccum_done 7 16519 (by norm_num),
    show (16519 : ℕ) = 64 * 256 + (128 + 7) by norm_num,
    vlqEmit_packed (by norm_num), vlqEmit_single (by norm_num)]

/-! ## Claim theorems -/

/-- Claim C1: encoding an empty note list at 120 BPM produces exactly the
26 bytes of the 14-byte MThd header (length 6, format 0, 1 track, division
480 = 0x01E0), the 8-byte MTrk header with track length 4, and the four
track bytes 0x00 0xFF 0x2F 0x00 (zero delta time, end-of-track event). -/
theorem midi_empty_file :
    generateMidiFile [] 120 =
      [77, 84, 104, 100, 0, 0, 0, 6, 0, 0, 0, 1, 1, 224,
       77, 84, 114, 107, 0, 0, 0, 4, 0, 255, 47, 0] ∧
    (generateMidiFile [] 120).length = 26 := by
  have h : generateMidiFile [] 120 =
      [77, 84, 104, 100, 0, 0, 0, 6, 0, 0, 0, 1, 1, 224,
       77, 84, 114, 107, 0, 0, 0, 4, 0, 255, 47, 0] := by
    norm_num [generateMidiFile, sortedEvents, midiEvents, trackData, writeVarInt,
      vlqAccum, vlqAccumAux, vlqEmit, vlqEmitAux, mthdBytes, mtrkBytes, u32be,
      u16be] <;> omega
  exact ⟨h, by rw [h]; rfl⟩

/-- Claim C2: for every valid pitch class index and octave in the supported
range, the Note to Hz conversion (midi = (octave + 1) * 12 + index,
frequency = 440 * 2 ^ ((midi - 69) / 12)) followed by the Hz to Note
conversion recovers the same MIDI number (hence the same pitch class
midi % 12 and octave midi / 12 - 1) with a cents deviation of exactly 0. -/
theorem note_frequency_roundtrip (noteIdx octave : ℕ) (h1 : noteIdx < 12)
    (h2 : octave ≤ 8) :
    noteFromPitch (noteToFrequency noteIdx octave) = midiNumber noteIdx octave ∧
    centsOffFromPitch (noteToFrequency noteIdx octave)
      (noteFromPitch (noteToFrequency noteIdx octave)) = 0 ∧
    midiNumber noteIdx octave % 12 = noteIdx ∧
    midiNumber noteIdx octave / 12 - 1 = octave := by
  refine ⟨noteFromPitch_inverse _, ?_, ?_, ?_⟩
  · rw [noteToFrequency, noteFromPitch_inverse]
    exact centsOffFromPitch_self _
  · unfold midiNumber
    omega
  · unfold midiNumber
    omega

/-- Witness for C2 at pitch class A (index 9), octave 4: MIDI number 69. -/
theorem note_frequency_roundtrip_witness :
    noteFromPitch (noteToFrequency 9 4) = midiNumber 9 4 ∧
    centsOffFromPitch (noteToFrequency 9 4)
      (noteFromPitch (noteToFrequency 9 4)) = 0 ∧
    midiNumber 9 4 % 12 = 9 ∧
    midiNumber 9 4 / 12 - 1 = 4 :=
  note_frequency_roundtrip 9 4 (by norm_num) (by norm_num)

/-- Claim C3: for every tick value below 2 ^ 28 (the range where the JS
32-bit coercions inside `writeVarInt` are the identity), encoding with
`writeVarInt` and decoding the bytes by the standard VLQ rule returns the
original value. -/
theorem vlq_roundtrip (v : ℕ) (h : v < 2 ^ 28) :
    vlqDecode (writeVarInt v) = v :=
  writeVarInt_decode v

/-- Witness for C3 at the largest four-byte VLQ value 2 ^ 28 - 1. -/
theorem vlq_roundtrip_witness : vlqDecode (writeVarInt 268435455) = 268435455 :=
  vlq_roundtrip 268435455 (by norm_num)

/-- Counterexample to C4 as stated: on the frame
[0.5, 0, 0.5, 0.5, 0, 0.5] (RMS well above the 0.01 floor) the code slices
between the first and last samples BELOW the 0.2 threshold, producing
[0, 0.5, 0.5], while the region bounded by the first and last samples
EXCEEDING the threshold (the spec wording) is the whole frame. -/
theorem trim_exceed_counterexample :
    ¬ lowSignal [1/2, 0, 1/2, 1/2, 0, 1/2] ∧
    bufSlice [1/2, 0, 1/2, 1/2, 0, 1/2] ≠
      specTrimSlice [1/2, 0, 1/2, 1/2, 0, 1/2] := by
  constructor
  · norm_num [lowSignal, sumSq]
  · have hcode : bufSlice [1/2, 0, 1/2, 1/2, 0, 1/2] = [0, 1/2, 1/2] := by
      norm_num [bufSlice, r1Loop, r1LoopAux, r2Loop, r2LoopAux, abs_of_nonneg]
    have hspec : specTrimSlice [1/2, 0, 1/2, 1/2, 0, 1/2] =
        [1/2, 0, 1/2, 1/2, 0, 1/2] := by
      norm_num [specTrimSlice, List.range_succ, List.find?, abs_of_nonneg]
    rw [hcode, hspec]
    simp

/-- Claim C4 as amended: the estimator trims the frame to the half-open
region from the first sample in the first half whose absolute value is
BELOW the 0.2 threshold up to (exclusive) the position size - j of the
first below-threshold sample found scanning from the end of the frame. -/
theorem trim_below_threshold (buf : List ℚ) (i j : ℕ)
    (hi2 : 2 * i < buf.length) (hiv : |buf.getD i 0| < 1 / 5)
    (himin : ∀ k, k < i → ¬(|buf.getD k 0| < 1 / 5))
    (hj1 : 1 ≤ j) (hj2 : 2 * j < buf.length)
    (hjv : |buf.getD (buf.length - j) 0| < 1 / 5)
    (hjmin : ∀ k, k < j → 1 ≤ k → ¬(|buf.getD (buf.length - k) 0| < 1 / 5)) :
    bufSlice buf = (buf.drop i).take (buf.length - j - i) := by
  unfold bufSlice r1Loop r2Loop
  rw [r1LoopAux_reach buf i (buf.length + 1) 0 (by omega) (by simpa using hi2)
      (by simpa using hiv) (fun m hm1 hm2 => himin m (by omega)),
    r2LoopAux_reach buf (j - 1) (buf.length + 1) 1 (by omega) (by omega)
      (by have hj : 1 + (j - 1) = j := by omega
          rw [hj]
          exact hjv)
      (fun m hm1 hm2 => hjmin m (by omega) hm1)]
  have e1 : 0 + i = i := by omega
  have e2 : 1 + (j - 1) = j := by omega
  rw [e1, e2]

/-- Witness for the amended C4 on [0.5, 0, 0.5, 0.5, 0, 0.5]: the first
below-threshold sample of the first half is at index 1 and the first
below-threshold sample from the end is at offset 2, so the code keeps
indices [1, 4). -/
theorem trim_below_threshold_witness :
    bufSlice [1/2, 0, 1/2, 1/2, 0, 1/2] =
      (([1/2, 0, 1/2, 1/2, 0, 1/2] : List ℚ).drop 1).take
        (([1/2, 0, 1/2, 1/2, 0, 1/2] : List ℚ).length - 2 - 1) :=
  trim_below_threshold _ 1 2 (by norm_num)
    (by norm_num [List.getD])
    (by intro k hk
        interval_cases k <;> norm_num [List.getD, abs_of_nonneg])
    (by norm_num) (by norm_num)
    (by norm_num [List.getD])
    (by intro k hk hk1
        interval_cases k <;> norm_num [List.getD, abs_of_nonneg])

/-- Counterexample to C5 as stated: on the frame [1, -1] (RMS = 1, far
above the noise floor) the trimmed slice is [1], its autocorrelation is
[1], the global maximum sits at lag 0, interpolation is skipped because
c[-1] is undefined, and the code divides by the zero period: in JS the
call returns sampleRate / 0 = Infinity, neither the -1 sentinel nor a
strictly positive frequency. -/
theorem getPitch_zero_period_counterexample :
    getPitch [1, -1] 44100 = PitchResult.infinite := by
  norm_num [getPitch, lowSignal, sumSq, getPitchT0, bufSlice, r1Loop, r1LoopAux,
    r2Loop, r2LoopAux, autocorr, skipDescent, skipDescentAux, maxScan, interp, cGet,
    List.range_succ]

/-- Claim C5 as amended: the estimator returns the low-signal sentinel, or
an unguarded division by a zero period (Infinity in JS), or the frequency
sampleRate / T0, which is never exactly zero and is strictly positive
whenever the computed period T0 is positive (but can be negative for a
degenerate negative period). -/
theorem getPitch_result_characterization (buf : List ℚ) (sampleRate : ℚ)
    (h : 0 < sampleRate) :
    getPitch buf sampleRate = PitchResult.silent ∨
    getPitch buf sampleRate = PitchResult.infinite ∨
    (getPitch buf sampleRate = PitchResult.freq (sampleRate / getPitchT0 buf) ∧
      sampleRate / getPitchT0 buf ≠ 0 ∧
      (0 < getPitchT0 buf → 0 < sampleRate / getPitchT0 buf)) := by
  unfold getPitch
  by_cases h1 : lowSignal buf
  · left
    rw [if_pos h1]
  · by_cases h2 : getPitchT0 buf = 0
    · right; left
      rw [if_neg h1, if_pos h2]
    · right; right
      rw [if_neg h1, if_neg h2]
      exact ⟨rfl, div_ne_zero (ne_of_gt h) h2, fun ht => div_pos h ht⟩

/-- Witness for the amended C5 at the frame [1, -1] and sample rate 44100. -/
theorem getPitch_result_characterization_witness :
    getPitch [1, -1] 44100 = PitchResult.silent ∨
    getPitch [1, -1] 44100 = PitchResult.infinite ∨
    (getPitch [1, -1] 44100 = PitchResult.freq (44100 / getPitchT0 [1, -1]) ∧
      44100 / getPitchT0 [1, -1] ≠ 0 ∧
      (0 < getPitchT0 [1, -1] → 0 < 44100 / getPitchT0 [1, -1])) :=
  getPitch_result_characterization [1, -1] 44100 (by norm_num)

/-- Claim C6: from the empty tracker, a tap at t = 0 followed by a tap at
t = 4000 drops the stale first timestamp (gap 4000 is not below the
3000 ms window), leaving the single timestamp 4000; since fewer than two
timestamps remain, no BPM is computed and the bpm state keeps its
insufficient-data value 0 (rendered as the placeholder). -/
theorem tap_staleness_insufficient :
    (handleTap (handleTap initialTapState 0) 4000).taps = [4000] ∧
    (handleTap (handleTap initialTapState 0) 4000).bpm = BpmState.val 0 := by
  decide

/-- Claim C7 (evaluation at the failing input): two taps recorded at the
identical millisecond 1000 keep both timestamps in the window, produce the
single interval 0, a zero mean interval, and the unguarded division
60000 / 0, which in JS is Infinity: the BPM is infinite, contradicting the
claim that the tracker guards the degenerate duplicate-timestamp case. -/
theorem tap_duplicate_infinite_bpm :
    (handleTap (handleTap initialTapState 1000) 1000).bpm =
      BpmState.infiniteBpm := by
  decide

/-- Counterexample to C8 as stated: the note {pitch 200, velocity 100,
start 0, duration 1} has a pitch outside 0..127, yet the encoder raises no
input-validation error and produces a nonempty byte stream that contains
the out-of-range pitch byte 200 verbatim. -/
theorem midi_invalid_note_encoded :
    generateMidiFile [⟨200, 100, 0, 1⟩] 120 ≠ [] ∧
    200 ∈ generateMidiFile [⟨200, 100, 0, 1⟩] 120 := by
  have hsort : sortedEvents [⟨200, 100, 0, 1⟩] 120 =
      midiEvents [⟨200, 100, 0, 1⟩] 120 := by
    apply List.mergeSort_of_sorted
    norm_num [midiEvents, noteEvents, secondsPerTick, List.pairwise_cons, eventLE,
      round_eq]
  have hev : generateMidiFile [⟨200, 100, 0, 1⟩] 120 =
      [77, 84, 104, 100, 0, 0, 0, 6, 0, 0, 0, 1, 1, 224, 77, 84, 114, 107,
       0, 0, 0, 13, 0, 144, 200, 100, 135, 64, 128, 200, 0, 0, 255, 47, 0] := by
    rw [generateMidiFile, hsort]
    norm_num [midiEvents, noteEvents, secondsPerTick, trackData, trackEventStep,
      writeVarInt_zero, writeVarInt_960, int_toNat_960, mthdBytes, mtrkBytes,
      u32be, u16be, round_eq] <;> omega
  rw [hev]
  constructor
  · simp
  · simp

/-- Claim C8 as amended: the encoder performs no input validation at all;
for every note list, out-of-range fields included, it produces a byte
stream of at least 26 bytes starting with the MThd magic (values outside
0..255 are wrapped modulo 256 on the write into the byte array). -/
theorem midi_no_validation (notes : List MidiNote) (bpm : ℚ) :
    26 ≤ (generateMidiFile notes bpm).length ∧
    (generateMidiFile notes bpm).take 4 = mthdBytes := by
  constructor
  · unfold generateMidiFile
    simp only [List.length_append, List.length_map, mthdBytes, mtrkBytes, u32be,
      u16be, List.length_cons, List.length_nil]
    have h := trackData_length_ge (sortedEvents notes bpm)
    omega
  · rfl

/-- Claim C9: the descending-skip loop of the pitch estimator always
terminates with a lag index bounded by the length of the autocorrelation
buffer (the embedding of the loop is a total function, and out-of-bounds
reads stop the JS loop because a comparison with undefined is false). -/
theorem pitch_skip_loop_bounded (buf : List ℚ) :
    skipDescent (autocorr (bufSlice buf)) ≤ (autocorr (bufSlice buf)).length := by
  unfold skipDescent
  rcases Nat.eq_zero_or_pos (autocorr (bufSlice buf)).length with h | h
  · rw [h]
    simp [skipDescentAux]
  · exact le_of_lt (skipDescentAux_lt _ _ 0 h)

/-- Claim C10: for every note list with nonnegative durations and positive
BPM, the pair [note-on, note-off] generated for each note is a sublist of
the sorted event stream, in that order: the note-on tick is at most the
note-off tick and the merge sort is stable, so the track bytes emit each
note-on no later than the matching note-off, even when both fall on the
same tick. -/
theorem noteOn_before_noteOff (notes : List MidiNote) (bpm : ℚ) (n : MidiNote)
    (hbpm : 0 < bpm) (hdur : ∀ m ∈ notes, 0 ≤ m.duration) (hn : n ∈ notes) :
    List.Sublist (noteEvents (secondsPerTick bpm) n) (sortedEvents notes bpm) := by
  have hspt : 0 < secondsPerTick bpm := by
    unfold secondsPerTick
    positivity
  have hticks : round (n.startTime / secondsPerTick bpm) ≤
      round ((n.startTime + n.duration) / secondsPerTick bpm) := by
    rw [round_eq, round_eq]
    apply Int.floor_mono
    have hd := hdur n hn
    have hdiv : n.startTime / secondsPerTick bpm ≤
        (n.startTime + n.duration) / secondsPerTick bpm := by
      apply div_le_div_of_nonneg_right ?_ (le_of_lt hspt)
      linarith
    linarith
  have hsub : List.Sublist (noteEvents (secondsPerTick bpm) n) (midiEvents notes bpm) :=
    sublist_flatMap_self _ hn
  unfold sortedEvents
  exact List.pair_sublist_mergeSort eventLE_trans eventLE_total
    (by simp only [eventLE, decide_eq_true_eq]; exact hticks) hsub

/-- Witness for C10 on one note whose 0.0001 s duration rounds to zero
ticks at 120 BPM: note-on and note-off both land on tick 0 and the
note-on still precedes the note-off. -/
theorem noteOn_before_noteOff_witness :
    List.Sublist (noteEvents (secondsPerTick 120) ⟨60, 100, 0, 1/10000⟩)
      (sortedEvents [⟨60, 100, 0, 1/10000⟩] 120) :=
  noteOn_before_noteOff [⟨60, 100, 0, 1/10000⟩] 120 ⟨60, 100, 0, 1/10000⟩
    (by norm_num) (by norm_num) (by norm_num)

end Sidekick
